import Mathlib

set_option maxHeartbeats 1000000
set_option maxRecDepth 40000

/- Shallow embedding of the inner_monologue repository (src/main.py and
   src/kimi_api.py).  Python strings are modelled as `List Char`; on-disk
   files as `Option (List Char)` (`none` = file absent) or as logical
   record tables.  The two external collaborators — the remote chat
   completion endpoint and the stdlib JSON decoder — are parameters of the
   embedding: `api` maps a message list to either a reply text or a raised
   exception, and `loads` maps a text to the decoded JSON object or `none`
   (a raised JSONDecodeError).  Since every extracted candidate starts with
   a brace, a successful decode is always an object, hence the codomain
   `Option JsonObj`. -/

namespace InnerMonologue

/-- JSON values as they occur inside a decoded object.  Nested arrays and
objects are elided (no claim depends on them); numbers are modelled as
integers. -/
inductive Json where
  | str : List Char → Json
  | num : Int → Json
  | bool : Bool → Json
  | null : Json
  deriving DecidableEq

/-- A decoded JSON object: association list of key/value pairs
(models a Python dict; keys are unique in decoder output). -/
def JsonObj := List (List Char × Json)

instance : DecidableEq JsonObj := by
  unfold JsonObj
  infer_instance

/-- One chat turn, as built by `process_sentence` (`{"role": ..., "content": ...}`). -/
structure Message where
  role : List Char
  content : List Char
  deriving DecidableEq

/-- A successful Generation Record: the dict
`{"自我肯定语": sentence, "自我旁白": ..., "MODEL_NAME": ...}`
returned by `process_sentence` on full success. -/
structure Record where
  sentence : List Char
  monologue : Json
  modelName : List Char
  deriving DecidableEq

/-- A Failure Record `{"自我肯定语": original_sentence}` appended to
`fail_data` by the orchestrator. -/
structure FailRec where
  sentence : List Char
  deriving DecidableEq

/-- The opening brace character. -/
def openBrace : Char := '\x7b'

/-- The closing brace character. -/
def closeBrace : Char := '\x7d'

/-- The constant `MODEL_NAME = "kimi-latest"` from src/kimi_api.py. -/
def MODEL_NAME : List Char := "kimi-latest".data

/-- Python dict membership/lookup on a decoded object: first binding of the
key wins (decoder output has unique keys anyway). -/
def dictGet (d : JsonObj) (k : List Char) : Option Json :=
  match d with
  | [] => none
  | (k', v) :: rest => if k' = k then some v else dictGet rest k

/-- Python `str()` of a JSON value, used when a decoded value is
interpolated into the critique f-string. -/
def natToChars (n : Nat) : List Char :=
  if n = 0 then ['0']
  else ((Nat.digits 10 n).map digitChar).reverse
where
  /-- The decimal digit character for `d < 10` (junk above). -/
  digitChar : Nat → Char
    | 0 => '0' | 1 => '1' | 2 => '2' | 3 => '3' | 4 => '4'
    | 5 => '5' | 6 => '6' | 7 => '7' | 8 => '8' | 9 => '9'
    | _ => '*'

/-- Python `str()` of an integer. -/
def intToChars (i : Int) : List Char :=
  if i < 0 then '-' :: natToChars i.natAbs else natToChars i.toNat

/-- Python `str()` of a modelled JSON value. -/
def pyStr : Json → List Char
  | .str s => s
  | .num n => intToChars n
  | .bool b => if b then "True".data else "False".data
  | .null => "None".data

/- ------------------------------------------------------------------ -/
/- clean_value (src/main.py lines 26-30)                               -/
/- ------------------------------------------------------------------ -/

/-- Python `value.replace("\n", "\\n")` on the character list of a string: every
literal newline becomes the two-character sequence backslash-`n`
(single-character pattern, so plain left-to-right expansion). -/
def cleanChars : List Char → List Char
  | [] => []
  | c :: cs => if c = '\n' then '\\' :: 'n' :: cleanChars cs else c :: cleanChars cs

/-- Function `clean_value` from src/main.py: replace newlines when the value is a
string (`isinstance(value, str)`), return any other value unchanged. -/
def clean_value : Json → Json
  | .str s => .str (cleanChars s)
  | v => v

/-- The spec's reverse operation: replace every two-character sequence
backslash-`n` back with a literal newline (left-to-right, non-overlapping,
i.e. Python `s.replace("\\n", "\n")`). -/
def unescapeChars : List Char → List Char
  | [] => []
  | [c] => [c]
  | c :: d :: cs =>
    if c = '\\' ∧ d = 'n' then '\n' :: unescapeChars cs
    else c :: unescapeChars (d :: cs)

/-- Holds (`true`) iff the text contains no occurrence of a backslash immediately
followed by the letter `n`. -/
def noBackslashN : List Char → Bool
  | [] => true
  | [_] => true
  | c :: d :: cs =>
    if c = '\\' ∧ d = 'n' then false else noBackslashN (d :: cs)

/- ------------------------------------------------------------------ -/
/- extract_json (src/main.py lines 32-43)                              -/
/- ------------------------------------------------------------------ -/

/-- The longest prefix of the text that ends with a closing brace, i.e.
the text up to and including its last `closeBrace`; `none` when the text
has no closing brace. -/
def uptoLastClose : List Char → Option (List Char)
  | [] => none
  | c :: cs =>
    match uptoLastClose cs with
    | some t => some (c :: t)
    | none => if c = closeBrace then some [c] else none

/-- The regex search for a dot-all greedy brace-bounded pattern: leftmost match start
(the first opening brace that still has a closing brace after it), greedy
end (the last closing brace of the whole text). -/
def reSearchBraces : List Char → Option (List Char)
  | [] => none
  | c :: cs =>
    if c = openBrace then
      match uptoLastClose cs with
      | some t => some (c :: t)
      | none => reSearchBraces cs
    else reSearchBraces cs

/-- Function `extract_json` from src/main.py: take the greedy brace-bounded
substring and decode it; `none` on a missing substring or a decode
failure (the logged warning is a pure side effect and is not modelled). -/
def extract_json (loads : List Char → Option JsonObj) (response : List Char) :
    Option JsonObj :=
  match reSearchBraces response with
  | some m => loads m
  | none => none

/-- Index of the first opening brace of the text (spec side). -/
def firstOpenIdx : List Char → Option Nat
  | [] => none
  | c :: cs => if c = openBrace then some 0 else (firstOpenIdx cs).map (· + 1)

/-- Index of the last closing brace of the text (spec side). -/
def lastCloseIdx : List Char → Option Nat
  | [] => none
  | c :: cs =>
    match lastCloseIdx cs with
    | some j => some (j + 1)
    | none => if c = closeBrace then some 0 else none

/-- Modelled from the spec's words for the Response Parser: "locate the
first substring bounded by the outermost brace pair (greedy, spans
newlines)" — the slice from the first opening brace to the last closing
brace, provided the former comes strictly before the latter. -/
def greedyBraceSpec (s : List Char) : Option (List Char) :=
  match firstOpenIdx s, lastCloseIdx s with
  | some i, some j => if i < j then some ((s.drop i).take (j + 1 - i)) else none
  | _, _ => none

/- ------------------------------------------------------------------ -/
/- send_messages (src/kimi_api.py lines 20-30)                         -/
/- ------------------------------------------------------------------ -/

/-- Python `str.strip()`: drop leading and trailing whitespace. -/
def trimChars (cs : List Char) : List Char :=
  ((cs.dropWhile Char.isWhitespace).reverse.dropWhile Char.isWhitespace).reverse

/-- Function `send_messages` from src/kimi_api.py: one blocking call to the remote
endpoint (the `api` parameter models
`client.chat.completions.create(...).choices[0].message.content`, with
`Except.error` standing for a raised exception), then `.strip()` of the
reply.  The unused `model`/`tools` keyword parameters are omitted. -/
def send_messages (api : List Message → Except (List Char) (List Char))
    (messages : List Message) : Except (List Char) (List Char) :=
  (api messages).map trimChars

/- ------------------------------------------------------------------ -/
/- process_sentence (src/main.py lines 45-108)                         -/
/- ------------------------------------------------------------------ -/

/-- The role string `"user"`. -/
def userRole : List Char := "user".data

/-- The key `"inner_monologue"` required in both model replies. -/
def innerKey : List Char := "inner_monologue".data

/-- The draft prompt f-string of `process_sentence`, with the input
sentence interpolated (literal braces written with their escape codes). -/
def draftPrompt (sentence : List Char) : List Char :=
  "\n    自我肯定语：".data ++ sentence ++
  ("\n\n    请仿照萨提亚的《当我真的愿意看见自己时》的风格，为输入的自我肯定语生成一段内心旁白。\n    注意适当换行以减少读者的阅读难度。分三到四段生成内心旁白。不要写诗。\n    约500字。\n    必须以第一人称叙述。\n    \n    请严格按照以下 JSON 格式返回数据：\n    \x7b\n      \"inner_monologue\": \"这里是生成的内心旁白内容\"\n    \x7d\n    ".data)

/-- The critique prompt f-string, with the stage-1 value interpolated via
`str()`. -/
def checkPrompt (draftVal : Json) : List Char :=
  "\n            针对上一次生成的内心旁白：\n            ".data ++ pyStr draftVal ++
  ("\n\n            请检查并优化以下内容：\n            - 修正标点/空格问题\n            - 改善语句通顺度\n            - 统一人称（第一人称），必须以第一人称叙述。\n            - 删除外语内容\n            - 防止场景过于具体\n            - 确保500字长度\n            - 删除奇怪比喻\n            - 修正语病/错别字\n            \n            直接返回优化后的JSON：\n            \x7b\n                \"inner_monologue\": \"这里是修改后生成的内心旁白内容\"\n            \x7d\n            ".data)

/-- The one-turn draft conversation `[{"role": "user", "content": prompt}]`. -/
def draftMessages (sentence : List Char) : List Message :=
  [⟨userRole, draftPrompt sentence⟩]

/-- Instrumented `process_sentence` from src/main.py: the returned pair
`(index, result-or-None)` together with the trace of message lists passed
to the endpoint (used to count calls).  The surrounding
`try/except Exception` is the `Except.error` match arms: a raised call
becomes `(index, none)`.  The Python guard
`if parsed_response and "inner_monologue" in parsed_response` is the
truthiness of the dict conjoined with key membership. -/
def process_sentenceT (loads : List Char → Option JsonObj)
    (api : List Message → Except (List Char) (List Char))
    (index : Nat) (sentence : List Char) :
    (Nat × Option Record) × List (List Message) :=
  let messages := draftMessages sentence
  match send_messages api messages with
  | .error _ => ((index, none), [messages])
  | .ok response =>
    match extract_json loads response with
    | some parsed =>
      if !parsed.isEmpty && (dictGet parsed innerKey).isSome then
        let draftVal := (dictGet parsed innerKey).getD Json.null
        let messages2 := messages ++ [⟨userRole, checkPrompt draftVal⟩]
        match send_messages api messages2 with
        | .error _ => ((index, none), [messages, messages2])
        | .ok checkResponse =>
          match extract_json loads checkResponse with
          | some checkParsed =>
            if !checkParsed.isEmpty && (dictGet checkParsed innerKey).isSome then
              ((index, some ⟨sentence,
                clean_value ((dictGet checkParsed innerKey).getD Json.null),
                MODEL_NAME⟩), [messages, messages2])
            else ((index, none), [messages, messages2])
          | none => ((index, none), [messages, messages2])
      else ((index, none), [messages])
    | none => ((index, none), [messages])

/-- Function `process_sentence` proper: the `(index, result)` pair. -/
def process_sentence (loads : List Char → Option JsonObj)
    (api : List Message → Except (List Char) (List Char))
    (index : Nat) (sentence : List Char) : Nat × Option Record :=
  (process_sentenceT loads api index sentence).1

/- ------------------------------------------------------------------ -/
/- save_checkpoint / load_checkpoint (src/main.py lines 110-121)       -/
/- ------------------------------------------------------------------ -/

/-- Python `",".join(parts)` on character lists. -/
def joinComma : List (List Char) → List Char
  | [] => []
  | [p] => p
  | p :: q :: ps => p ++ ',' :: joinComma (q :: ps)

/-- Python `content.split(",")` on character lists (always at least one token). -/
def splitOnComma : List Char → List (List Char)
  | [] => [[]]
  | c :: cs =>
    if c = ',' then [] :: splitOnComma cs
    else
      match splitOnComma cs with
      | t :: ts => (c :: t) :: ts
      | [] => [[c]]

/-- Python `int(token)` on a checkpoint token, modelled on its actual
domain (non-negative decimal numerals): `none` (a raised ValueError) on an
empty or non-digit token, else the decimal value. -/
def charsInt (cs : List Char) : Option Nat :=
  if cs.isEmpty then none
  else if cs.all Char.isDigit then
    some (Nat.ofDigits 10 ((cs.map digitVal).reverse))
  else none
where
  /-- Numeric value of a decimal digit character. -/
  digitVal (c : Char) : Nat := c.toNat - 48

/-- Python `map(int, tokens)` materialised left to right; `none` when any token
raises. -/
def parseTokens : List (List Char) → Option (List Nat)
  | [] => some []
  | t :: ts =>
    match charsInt t, parseTokens ts with
    | some n, some ns => some (n :: ns)
    | _, _ => none

/-- Function `save_checkpoint` from src/main.py: the file content written,
`",".join(map(str, completed_indexes))`, for a given iteration order of
the set. -/
def save_checkpoint (completed_indexes : List Nat) : List Char :=
  joinComma (completed_indexes.map natToChars)

/-- Function `load_checkpoint` from src/main.py over the file content (`none` =
file absent).  The read content is stripped; an empty stripped content is
falsy and yields the empty set; otherwise the comma-separated tokens are
parsed (outer `none` = a raised ValueError) and collected into a set. -/
def load_checkpoint (file : Option (List Char)) : Option (Finset Nat) :=
  match file with
  | none => some ∅
  | some raw =>
    let content := trimChars raw
    if content.isEmpty then some ∅
    else (parseTokens (splitOnComma content)).map List.toFinset

/- ------------------------------------------------------------------ -/
/- process_sentences_concurrently (src/main.py lines 123-169)          -/
/- ------------------------------------------------------------------ -/

/-- The filtered dispatch list
`[(i + start_index, s) for i, s in enumerate(sentences) if (i + start_index) not in completed_indexes]`,
with `i` the running enumeration counter. -/
def pendingAux (completed : Finset Nat) (start : Nat) :
    Nat → List (List Char) → List (Nat × List Char)
  | _, [] => []
  | i, s :: rest =>
    if (i + start) ∈ completed then pendingAux completed start (i + 1) rest
    else (i + start, s) :: pendingAux completed start (i + 1) rest

/-- The list `to_process` for a loaded checkpoint set. -/
def pendingOf (completed : Finset Nat) (sentences : List (List Char))
    (start : Nat) : List (Nat × List Char) :=
  pendingAux completed start 0 sentences

/-- One iteration of the `as_completed` collection loop: unpack
`(index, result)` from the finished task, append the Generation Record and
mark the index completed on success, append a Failure Record re-looked-up
as `sentences[index - start_index]` on failure. -/
def gatherStep (loads : List Char → Option JsonObj)
    (api : List Message → Except (List Char) (List Char))
    (sentences : List (List Char)) (start : Nat)
    (acc : List Record × List FailRec × Finset Nat) (p : Nat × List Char) :
    List Record × List FailRec × Finset Nat :=
  match process_sentence loads api p.1 p.2 with
  | (index, some r) => (acc.1 ++ [r], acc.2.1, insert index acc.2.2)
  | (index, none) => (acc.1, acc.2.1 ++ [⟨sentences.getD (index - start) []⟩], acc.2.2)

/-- The collection loop over the completions, in their arrival order
`order` (the thread pool yields the dispatched tasks in some unspecified
permutation of the dispatch list). -/
def runTasks (loads : List Char → Option JsonObj)
    (api : List Message → Except (List Char) (List Char))
    (sentences : List (List Char)) (start : Nat) (completed : Finset Nat)
    (order : List (Nat × List Char)) :
    List Record × List FailRec × Finset Nat :=
  order.foldl (gatherStep loads api sentences start) ([], [], completed)

/-- Function `process_sentences_concurrently` from src/main.py, over the checkpoint
file content and a completion order.  Returns
`(results, fail_data, checkpoint file content afterwards)`; the outer
`none` is a raised exception from `load_checkpoint`.  With
`ignore_checkpoint` the loaded set is replaced by the empty set and the
final `save_checkpoint` is skipped; the empty-pending early return also
leaves the file untouched. -/
def process_sentences_concurrently (loads : List Char → Option JsonObj)
    (api : List Message → Except (List Char) (List Char))
    (ckFile : Option (List Char)) (sentences : List (List Char))
    (start_index : Nat) (ignore_checkpoint : Bool)
    (order : List (Nat × List Char)) :
    Option (List Record × List FailRec × Option (List Char)) :=
  match (if ignore_checkpoint then some (∅ : Finset Nat) else load_checkpoint ckFile) with
  | none => none
  | some completed_indexes =>
    let to_process := pendingOf completed_indexes sentences start_index
    if to_process.isEmpty then some ([], [], ckFile)
    else
      let out := runTasks loads api sentences start_index completed_indexes order
      some (out.1, out.2.1,
        if ignore_checkpoint then ckFile
        else some (save_checkpoint ((out.2.2).sort (· ≤ ·))))

/- ------------------------------------------------------------------ -/
/- save_results (src/main.py lines 171-194)                            -/
/- ------------------------------------------------------------------ -/

/-- Function `save_results` from src/main.py over the logical file contents (the
pandas CSV layer is an external collaborator; a file is its record list,
`none` = absent).  Successes are appended to the output table when
non-empty; the failure table is overwritten with the current failures when
non-empty and deleted otherwise. -/
def save_results (results : List Record) (fail_data : List FailRec)
    (outFile : Option (List Record)) (failFile : Option (List FailRec)) :
    Option (List Record) × Option (List FailRec) :=
  ( if results.isEmpty then outFile else some (outFile.getD [] ++ results),
    if fail_data.isEmpty then none else some fail_data )

/- ================================================================== -/
/- Theorems                                                            -/
/- ================================================================== -/

/- C5: the escaping law. -/

theorem newline_not_mem_cleanChars (s : List Char) : '\n' ∉ cleanChars s := by
  induction s with
  | nil => simp [cleanChars]
  | cons c cs ih =>
    by_cases hc : c = '\n' <;> simp [cleanChars, hc, ih]
    intro h
    exact absurd h.symm hc

theorem cleanChars_eq_nil (s : List Char) (h : cleanChars s = []) : s = [] := by
  cases s with
  | nil => rfl
  | cons c cs =>
    by_cases hc : c = '\n' <;> simp [cleanChars, hc] at h

theorem clean_cons (c : Char) (cs : List Char) :
    cleanChars (c :: cs) =
      if c = '\n' then '\\' :: 'n' :: cleanChars cs else c :: cleanChars cs := rfl

theorem unescape_one (c : Char) : unescapeChars [c] = [c] := rfl

theorem unescape_two (c d : Char) (cs : List Char) :
    unescapeChars (c :: d :: cs) =
      if c = '\\' ∧ d = 'n' then '\n' :: unescapeChars cs
      else c :: unescapeChars (d :: cs) := rfl

theorem cleanChars_head_n (s : List Char) (e : Char) (es : List Char)
    (h : cleanChars s = e :: es) (he : e = 'n') : s.head? = some 'n' := by
  cases s with
  | nil => simp [cleanChars] at h
  | cons c cs =>
    by_cases hc : c = '\n' <;> simp [clean_cons, hc] at h
    · exact absurd (h.1.trans he) (by decide)
    · simp [h.1, he]

theorem noBackslashN_cons (c : Char) (cs : List Char)
    (h : noBackslashN (c :: cs) = true) :
    noBackslashN cs = true ∧ (c = '\\' → cs.head? ≠ some 'n') := by
  cases cs with
  | nil => simp [noBackslashN]
  | cons d ds =>
    rw [noBackslashN] at h
    split at h
    · exact absurd h (by simp)
    · next hnot =>
      refine ⟨h, ?_⟩
      intro hb hh
      simp at hh
      exact hnot ⟨hb, hh⟩

theorem unescape_cleanChars (s : List Char) (h : noBackslashN s = true) :
    unescapeChars (cleanChars s) = s := by
  induction s with
  | nil => simp [cleanChars, unescapeChars]
  | cons c cs ih =>
    obtain ⟨hcs, hhead⟩ := noBackslashN_cons c cs h
    by_cases hc : c = '\n'
    · subst hc
      rw [clean_cons, if_pos rfl, unescape_two, if_pos ⟨rfl, rfl⟩, ih hcs]
    · rw [clean_cons, if_neg hc]
      rcases he : cleanChars cs with _ | ⟨e, es⟩
      · rw [unescape_one, cleanChars_eq_nil cs he]
      · have hen : ¬(c = '\\' ∧ e = 'n') := by
          rintro ⟨hb, hn⟩
          exact hhead hb (cleanChars_head_n cs e es he hn)
        rw [unescape_two, if_neg hen, ← he, ih hcs]

/-- C5 (corrected): for any narrative text that contains no two-character
backslash-`n` sequence, `clean_value` escapes it to a string with zero
literal newline characters, and replacing every backslash-`n` back with a
newline reproduces the original exactly.  (As originally stated — for all
texts containing a newline — the round trip fails; see the
counterexample.) -/
theorem clean_value_escape_round_trip (s : List Char)
    (h : noBackslashN s = true) :
    clean_value (Json.str s) = Json.str (cleanChars s) ∧
    '\n' ∉ cleanChars s ∧
    unescapeChars (cleanChars s) = s :=
  ⟨rfl, newline_not_mem_cleanChars s, unescape_cleanChars s h⟩

/-- C5 witness: the round trip at the concrete text `"a\nb"`. -/
theorem clean_value_escape_round_trip_witness :
    clean_value (Json.str ['a', '\n', 'b']) = Json.str (cleanChars ['a', '\n', 'b']) ∧
    '\n' ∉ cleanChars ['a', '\n', 'b'] ∧
    unescapeChars (cleanChars ['a', '\n', 'b']) = ['a', '\n', 'b'] :=
  clean_value_escape_round_trip ['a', '\n', 'b'] (by decide)

/-- C5 counterexample: the text backslash-`n`-newline contains a literal
newline, yet un-escaping its escaped form does not reproduce it — the
claim as stated fails on texts that already contain the two-character
sequence backslash-`n`. -/
theorem clean_value_escape_counterexample :
    '\n' ∈ ['\\', 'n', '\n'] ∧
    clean_value (Json.str ['\\', 'n', '\n']) = Json.str (cleanChars ['\\', 'n', '\n']) ∧
    unescapeChars (cleanChars ['\\', 'n', '\n']) ≠ ['\\', 'n', '\n'] := by
  decide

/- C8: the Response Parser matches the spec's greedy outermost-brace rule. -/

theorem upto_eq_lastCloseIdx (s : List Char) :
    uptoLastClose s = (lastCloseIdx s).map (fun j => s.take (j + 1)) := by
  induction s with
  | nil => rfl
  | cons c cs ih =>
    rcases hl : lastCloseIdx cs with _ | j
    · have hu : uptoLastClose cs = none := by rw [ih, hl]; rfl
      by_cases hc : c = closeBrace <;>
        simp [uptoLastClose, lastCloseIdx, hl, hu, hc]
    · have hu : uptoLastClose cs = some (cs.take (j + 1)) := by rw [ih, hl]; rfl
      simp [uptoLastClose, lastCloseIdx, hl, hu]

theorem reSearch_none_of_upto_none (s : List Char)
    (h : uptoLastClose s = none) : reSearchBraces s = none := by
  induction s with
  | nil => rfl
  | cons c cs ih =>
    rcases hu : uptoLastClose cs with _ | t
    · by_cases hc : c = openBrace <;> simp [reSearchBraces, hc, hu, ih hu]
    · exfalso
      simp [uptoLastClose, hu] at h

theorem reSearch_eq_greedy (s : List Char) :
    reSearchBraces s = greedyBraceSpec s := by
  induction s with
  | nil => rfl
  | cons c cs ih =>
    have hob : openBrace ≠ closeBrace := by decide
    have hcb : closeBrace ≠ openBrace := by decide
    by_cases hc : c = openBrace
    · rcases hl : lastCloseIdx cs with _ | j
      · have hu : uptoLastClose cs = none := by rw [upto_eq_lastCloseIdx, hl]; rfl
        have hne : c ≠ closeBrace := by rw [hc]; decide
        simp [reSearchBraces, hc, hu, greedyBraceSpec, firstOpenIdx, lastCloseIdx,
          hl, hne, hob, reSearch_none_of_upto_none cs hu]
      · have hu : uptoLastClose cs = some (cs.take (j + 1)) := by
          rw [upto_eq_lastCloseIdx, hl]; rfl
        simp [reSearchBraces, hc, hu, greedyBraceSpec, firstOpenIdx, lastCloseIdx, hl]
    · rcases hf : firstOpenIdx cs with _ | i
      · rw [reSearchBraces.eq_def]
        simp only [if_neg hc, ih]
        simp [greedyBraceSpec, firstOpenIdx, hc, hf]
      · rcases hl : lastCloseIdx cs with _ | j
        · by_cases hcc : c = closeBrace <;>
          · rw [reSearchBraces.eq_def]
            simp only [if_neg hc, ih]
            simp [greedyBraceSpec, firstOpenIdx, hc, hf, lastCloseIdx, hl, hcc, hcb]
        · rw [reSearchBraces.eq_def]
          simp only [if_neg hc, ih]
          have harith : j + 1 + 1 - (i + 1) = j + 1 - i := by omega
          by_cases hij : i < j
          · simp [greedyBraceSpec, firstOpenIdx, hc, hf, lastCloseIdx, hl, hij,
              Nat.succ_lt_succ_iff, harith]
          · simp [greedyBraceSpec, firstOpenIdx, hc, hf, lastCloseIdx, hl, hij,
              Nat.succ_lt_succ_iff]

/-- C8: for every raw text, `extract_json` returns exactly the decode of
the first greedy outermost brace-bounded substring (the slice from the
first opening brace to the last closing brace, spanning newlines), and the
failure marker when no such substring exists or the decode fails; being a
total function of the text via a total decoder, it raises nothing past its
boundary. -/
theorem extract_json_greedy_spec (loads : List Char → Option JsonObj)
    (response : List Char) :
    extract_json loads response = (greedyBraceSpec response).bind loads := by
  unfold extract_json
  rw [reSearch_eq_greedy]
  rcases greedyBraceSpec response with _ | m <;> rfl

/- C3 and C10: the Checkpoint Store. -/

theorem digitVal_digitChar (d : Nat) (h : d < 10) :
    charsInt.digitVal (natToChars.digitChar d) = d := by
  interval_cases d <;> decide

theorem isDigit_digitChar (d : Nat) (h : d < 10) :
    (natToChars.digitChar d).isDigit = true := by
  interval_cases d <;> decide

theorem digitChar_ne_comma (d : Nat) (h : d < 10) :
    natToChars.digitChar d ≠ ',' := by
  interval_cases d <;> decide

theorem digitChar_not_ws (d : Nat) (h : d < 10) :
    (natToChars.digitChar d).isWhitespace = false := by
  interval_cases d <;> decide

theorem natToChars_ne_nil (n : Nat) : natToChars n ≠ [] := by
  unfold natToChars
  split
  · simp
  · next h => simp [Nat.digits_ne_nil_iff_ne_zero, h]

theorem mem_natToChars (n : Nat) (c : Char) (h : c ∈ natToChars n) :
    ∃ d, d < 10 ∧ c = natToChars.digitChar d := by
  unfold natToChars at h
  split at h
  · simp at h
    exact ⟨0, by norm_num, by rw [h]; rfl⟩
  · simp only [List.mem_reverse, List.mem_map] at h
    obtain ⟨d, hd, rfl⟩ := h
    exact ⟨d, Nat.digits_lt_base (by norm_num) hd, rfl⟩

theorem charsInt_natToChars (n : Nat) : charsInt (natToChars n) = some n := by
  by_cases h0 : n = 0
  · subst h0
    decide
  · have hall : (natToChars n).all Char.isDigit = true := by
      rw [List.all_eq_true]
      intro c hc
      obtain ⟨d, hd, rfl⟩ := mem_natToChars n c hc
      exact isDigit_digitChar d hd
    rw [charsInt, if_neg (by simp [List.isEmpty_iff, natToChars_ne_nil n]), if_pos hall]
    congr 1
    conv_lhs => rw [natToChars, if_neg h0]
    rw [List.map_reverse, List.reverse_reverse, List.map_map]
    have hmap : (Nat.digits 10 n).map (charsInt.digitVal ∘ natToChars.digitChar) =
        Nat.digits 10 n := by
      have h1 : ∀ d ∈ Nat.digits 10 n,
          charsInt.digitVal (natToChars.digitChar d) = id d :=
        fun d hd => digitVal_digitChar d (Nat.digits_lt_base (by norm_num) hd)
      simp only [Function.comp_def]
      rw [List.map_congr_left h1, List.map_id]
    rw [hmap, Nat.ofDigits_digits]

theorem dropWhile_of_none (p : Char → Bool) (l : List Char)
    (h : ∀ c ∈ l, p c = false) : l.dropWhile p = l := by
  cases l with
  | nil => rfl
  | cons c cs => simp [List.dropWhile_cons, h c (by simp)]

theorem dropWhile_of_all (p : Char → Bool) (l : List Char)
    (h : ∀ c ∈ l, p c = true) : l.dropWhile p = [] := by
  induction l with
  | nil => rfl
  | cons c cs ih =>
    simp [List.dropWhile_cons, h c (by simp)]
    exact fun d hd => h d (by simp [hd])

theorem trim_of_no_ws (cs : List Char)
    (h : ∀ c ∈ cs, c.isWhitespace = false) : trimChars cs = cs := by
  unfold trimChars
  rw [dropWhile_of_none _ _ h,
    dropWhile_of_none _ _ (fun c hc => h c (List.mem_reverse.1 hc)),
    List.reverse_reverse]

theorem trim_all_ws (cs : List Char)
    (h : ∀ c ∈ cs, c.isWhitespace = true) : trimChars cs = [] := by
  unfold trimChars
  rw [dropWhile_of_all _ _ h]
  rfl

theorem splitOnComma_no_comma (p : List Char) (h : ',' ∉ p) :
    splitOnComma p = [p] := by
  induction p with
  | nil => rfl
  | cons c cs ih =>
    have hc : ¬c = ',' := fun hh => h (by simp [hh])
    have hcs : ',' ∉ cs := fun hh => h (by simp [hh])
    simp [splitOnComma, hc, ih hcs]

theorem splitOnComma_append (p rest : List Char) (h : ',' ∉ p) :
    splitOnComma (p ++ ',' :: rest) = p :: splitOnComma rest := by
  induction p with
  | nil => simp [splitOnComma]
  | cons c cs ih =>
    have hc : ¬c = ',' := fun hh => h (by simp [hh])
    have hcs : ',' ∉ cs := fun hh => h (by simp [hh])
    simp [splitOnComma, hc, ih hcs]

theorem splitOnComma_joinComma (parts : List (List Char)) (hne : parts ≠ [])
    (h : ∀ p ∈ parts, ',' ∉ p) : splitOnComma (joinComma parts) = parts := by
  induction parts with
  | nil => exact absurd rfl hne
  | cons p ps ih =>
    cases ps with
    | nil => exact splitOnComma_no_comma p (h p (by simp))
    | cons q qs =>
      rw [joinComma, splitOnComma_append p _ (h p (by simp)),
        ih (by simp) (fun r hr => h r (by simp [hr]))]

theorem mem_joinComma (parts : List (List Char)) (c : Char)
    (h : c ∈ joinComma parts) : c = ',' ∨ ∃ p ∈ parts, c ∈ p := by
  induction parts with
  | nil => simp [joinComma] at h
  | cons p ps ih =>
    cases ps with
    | nil =>
      rw [joinComma] at h
      exact Or.inr ⟨p, by simp, h⟩
    | cons q qs =>
      rw [joinComma] at h
      rcases List.mem_append.1 h with hp | hr
      · exact Or.inr ⟨p, by simp, hp⟩
      · rcases List.mem_cons.1 hr with rfl | hj
        · exact Or.inl rfl
        · rcases ih hj with hcomma | ⟨r, hrmem, hcr⟩
          · exact Or.inl hcomma
          · exact Or.inr ⟨r, by simp [List.mem_cons.1 hrmem], hcr⟩

theorem joinComma_ne_nil (p : List Char) (ps : List (List Char)) (hp : p ≠ []) :
    joinComma (p :: ps) ≠ [] := by
  cases ps with
  | nil => exact hp
  | cons q qs => simp [joinComma, hp]

theorem parseTokens_map_natToChars (l : List Nat) :
    parseTokens (l.map natToChars) = some l := by
  induction l with
  | nil => rfl
  | cons x xs ih => simp [parseTokens, charsInt_natToChars, ih]

/-- C3: saving any set of non-negative integers (in whatever order the set
iterates) and loading the file back reproduces exactly that set — the
on-disk format being one line of comma-separated decimal integers. -/
theorem checkpoint_round_trip (l : List Nat) :
    load_checkpoint (some (save_checkpoint l)) = some l.toFinset := by
  rcases l with _ | ⟨x, xs⟩
  · rfl
  · have hmem : ∀ c ∈ joinComma ((x :: xs).map natToChars), c.isWhitespace = false := by
      intro c hc
      rcases mem_joinComma _ c hc with rfl | ⟨p, hp, hcp⟩
      · decide
      · obtain ⟨m, _, rfl⟩ := List.mem_map.1 hp
        obtain ⟨d, hd, rfl⟩ := mem_natToChars m c hcp
        exact digitChar_not_ws d hd
    have hnocomma : ∀ p ∈ (x :: xs).map natToChars, ',' ∉ p := by
      intro p hp hmemc
      obtain ⟨m, _, rfl⟩ := List.mem_map.1 hp
      obtain ⟨d, hd, hc⟩ := mem_natToChars m ',' hmemc
      exact digitChar_ne_comma d hd hc.symm
    have hne : joinComma (natToChars x :: xs.map natToChars) ≠ [] :=
      joinComma_ne_nil _ _ (natToChars_ne_nil x)
    unfold load_checkpoint save_checkpoint
    simp only [trim_of_no_ws _ hmem]
    rw [if_neg (by simp only [List.map_cons, List.isEmpty_iff]; exact hne),
      splitOnComma_joinComma _ (by simp) hnocomma, parseTokens_map_natToChars]
    rfl

/-- C10: a checkpoint file that exists but is empty or all-whitespace
loads as the empty set rather than raising, while the unguarded
split-and-parse of the same content would raise (parse of the empty
token fails). -/
theorem load_checkpoint_blank (cs : List Char)
    (h : ∀ c ∈ cs, c.isWhitespace = true) :
    load_checkpoint (some cs) = some ∅ ∧
    parseTokens (splitOnComma (trimChars cs)) = none := by
  have ht := trim_all_ws cs h
  constructor
  · simp [load_checkpoint, ht]
  · rw [ht]
    rfl

/-- C10 witness: the concrete file content of one space and one newline. -/
theorem load_checkpoint_blank_witness :
    load_checkpoint (some [' ', '\n']) = some ∅ ∧
    parseTokens (splitOnComma (trimChars [' ', '\n'])) = none :=
  load_checkpoint_blank [' ', '\n'] (by decide)

/- C1 and C7: the Task Unit. -/

theorem send_messages_ok_no_error (api : List Message → Except (List Char) (List Char))
    (m : List Message) (r : List Char) (h : send_messages api m = Except.ok r)
    (e : List Char) : api m ≠ Except.error e := by
  intro he
  rw [send_messages, he] at h
  simp [Except.map] at h

theorem process_sentenceT_fst (loads : List Char → Option JsonObj)
    (api : List Message → Except (List Char) (List Char))
    (idx : Nat) (s : List Char) :
    ((process_sentenceT loads api idx s).1).1 = idx := by
  simp only [process_sentenceT]
  repeat' split
  all_goals rfl

theorem process_sentence_fst (loads : List Char → Option JsonObj)
    (api : List Message → Except (List Char) (List Char))
    (idx : Nat) (s : List Char) :
    (process_sentence loads api idx s).1 = idx :=
  process_sentenceT_fst loads api idx s

/-- C1: for every input `(index, sentence)` the Task Unit is a total
function whose result is paired with the same index and is exactly one of
a Generation Record or the failure marker; and whenever any call actually
made to the Model Client raised, the outcome is the failure marker for
that index — the exception is absorbed inside `process_sentence` and never
propagates (the embedding is total). -/
theorem process_sentence_exactly_one_outcome (loads : List Char → Option JsonObj)
    (api : List Message → Except (List Char) (List Char))
    (idx : Nat) (s : List Char) :
    ((process_sentenceT loads api idx s).1).1 = idx ∧
    (((process_sentenceT loads api idx s).1).2 = none ∨
      ∃ r, ((process_sentenceT loads api idx s).1).2 = some r) ∧
    ((∃ m ∈ (process_sentenceT loads api idx s).2, ∃ e, api m = Except.error e) →
      ((process_sentenceT loads api idx s).1).2 = none) := by
  refine ⟨process_sentenceT_fst loads api idx s, ?_, ?_⟩
  · rcases hh : ((process_sentenceT loads api idx s).1).2 with _ | r
    · exact Or.inl rfl
    · exact Or.inr ⟨r, rfl⟩
  · simp only [process_sentenceT]
    repeat' split
    all_goals
      first
      | exact fun _ => rfl
      | (rintro ⟨m, hm, e, he⟩
         simp only [List.mem_cons, List.not_mem_nil, or_false] at hm
         rcases hm with rfl | rfl
         · exact absurd he (send_messages_ok_no_error _ _ _ (by assumption) e)
         · exact absurd he (send_messages_ok_no_error _ _ _ (by assumption) e))

/-- C1 witness: a Model Client that raises on every call yields the
failure marker paired with the dispatched index. -/
theorem process_sentence_exactly_one_outcome_witness :
    ((process_sentenceT (fun _ => none) (fun _ => Except.error ['e']) 7 ['h', 'i']).1).2 =
      none :=
  (process_sentence_exactly_one_outcome (fun _ => none) (fun _ => Except.error ['e'])
      7 ['h', 'i']).2.2
    ⟨draftMessages ['h', 'i'], by decide, ['e'], rfl⟩

/-- C7: when the draft call returns but its reply fails to parse, or the
decoded object lacks the `inner_monologue` field, the Task Unit fails and
the call trace contains exactly the one draft call — the critique stage is
never attempted. -/
theorem draft_failure_skips_second_call (loads : List Char → Option JsonObj)
    (api : List Message → Except (List Char) (List Char))
    (idx : Nat) (s : List Char) (resp : List Char)
    (hok : send_messages api (draftMessages s) = Except.ok resp)
    (hfail : extract_json loads resp = none ∨
      ∃ parsed, extract_json loads resp = some parsed ∧
        dictGet parsed innerKey = none) :
    process_sentenceT loads api idx s = ((idx, none), [draftMessages s]) := by
  simp only [process_sentenceT, hok]
  rcases hfail with hnone | ⟨parsed, hp, hkey⟩
  · simp [hnone]
  · simp [hp, hkey]

/-- C7 witness: a draft reply with no JSON object at all makes the Task
Unit fail after a single call. -/
theorem draft_failure_skips_second_call_witness :
    process_sentenceT (fun _ => none) (fun _ => Except.ok ['x']) 3 ['h', 'i'] =
      ((3, none), [draftMessages ['h', 'i']]) :=
  draft_failure_skips_second_call (fun _ => none) (fun _ => Except.ok ['x'])
    3 ['h', 'i'] ['x'] rfl (Or.inl rfl)

/- C2, C4, C9: the Batch Orchestrator. -/

theorem pendingAux_cons (c : Finset Nat) (start i : Nat) (s : List Char)
    (rest : List (List Char)) :
    pendingAux c start i (s :: rest) =
      if (i + start) ∈ c then pendingAux c start (i + 1) rest
      else (i + start, s) :: pendingAux c start (i + 1) rest := rfl

theorem pendingAux_empty (c : Finset Nat) (start : Nat) :
    ∀ (l : List (List Char)) (i : Nat),
      (∀ k, k < l.length → (i + k + start) ∈ c) → pendingAux c start i l = [] := by
  intro l
  induction l with
  | nil => intro i _; rfl
  | cons s rest ih =>
    intro i h
    rw [pendingAux_cons, if_pos (by simpa using h 0 (by simp))]
    refine ih (i + 1) fun k hk => ?_
    have h2 := h (k + 1) (by simpa using hk)
    rwa [show i + (k + 1) + start = i + 1 + k + start by omega] at h2

theorem mem_pendingAux (c : Finset Nat) (start : Nat) :
    ∀ (l : List (List Char)) (i : Nat) (p : Nat × List Char),
      p ∈ pendingAux c start i l →
      ∃ k, k < l.length ∧ p.1 = i + k + start ∧ p.2 = l.getD k [] := by
  intro l
  induction l with
  | nil => intro i p h; simp [pendingAux] at h
  | cons s rest ih =>
    intro i p h
    rw [pendingAux_cons] at h
    by_cases hm : (i + start) ∈ c
    · rw [if_pos hm] at h
      obtain ⟨k, hk, h1, h2⟩ := ih (i + 1) p h
      exact ⟨k + 1, by simpa using hk, by omega, by simpa using h2⟩
    · rw [if_neg hm] at h
      rcases List.mem_cons.1 h with rfl | h'
      · exact ⟨0, by simp, by simp, rfl⟩
      · obtain ⟨k, hk, h1, h2⟩ := ih (i + 1) p h'
        exact ⟨k + 1, by simpa using hk, by omega, by simpa using h2⟩

theorem mem_pendingOf_getD (S : Finset Nat) (sentences : List (List Char))
    (start : Nat) (p : Nat × List Char) (h : p ∈ pendingOf S sentences start) :
    sentences.getD (p.1 - start) [] = p.2 := by
  obtain ⟨k, _, h1, h2⟩ := mem_pendingAux S start sentences 0 p h
  rw [h1, show 0 + k + start - start = k by omega]
  exact h2.symm

theorem runTasks_fails (loads : List Char → Option JsonObj)
    (api : List Message → Except (List Char) (List Char))
    (sentences : List (List Char)) (start : Nat) :
    ∀ (order : List (Nat × List Char)) (acc : List Record × List FailRec × Finset Nat),
      (∀ p ∈ order, sentences.getD (p.1 - start) [] = p.2) →
      (order.foldl (gatherStep loads api sentences start) acc).2.1 =
        acc.2.1 ++ order.filterMap (fun p =>
          match (process_sentence loads api p.1 p.2).2 with
          | none => some ⟨p.2⟩
          | some _ => none) := by
  intro order
  induction order with
  | nil => intro acc _; simp
  | cons p rest ih =>
    intro acc h
    rw [List.foldl_cons]
    have hp := h p (by simp)
    have hfst := process_sentence_fst loads api p.1 p.2
    rcases hres : process_sentence loads api p.1 p.2 with ⟨index, result⟩
    have hidx : index = p.1 := by rw [hres] at hfst; exact hfst
    rcases result with _ | r
    · have hg : gatherStep loads api sentences start acc p =
          (acc.1, acc.2.1 ++ [⟨sentences.getD (index - start) []⟩], acc.2.2) := by
        unfold gatherStep
        rw [hres]
      rw [hg, ih _ (fun q hq => h q (by simp [hq])), List.filterMap_cons]
      simp only [hres, hidx, hp]
      simp [List.append_assoc]
    · have hg : gatherStep loads api sentences start acc p =
          (acc.1 ++ [r], acc.2.1, insert index acc.2.2) := by
        unfold gatherStep
        rw [hres]
      rw [hg, ih _ (fun q hq => h q (by simp [hq])), List.filterMap_cons]
      simp [hres]

/-- C2: a run without bypass over inputs whose positions are all already
in the loaded Checkpoint Set dispatches nothing (the pending list is
empty) and returns immediately with empty results and failures, leaving
the checkpoint file as it was. -/
theorem orchestrator_idempotent (loads : List Char → Option JsonObj)
    (api : List Message → Except (List Char) (List Char))
    (ckFile : Option (List Char)) (sentences : List (List Char))
    (start : Nat) (order : List (Nat × List Char)) (S : Finset Nat)
    (hload : load_checkpoint ckFile = some S)
    (hall : ∀ i, i < sentences.length → (i + start) ∈ S) :
    pendingOf S sentences start = [] ∧
    process_sentences_concurrently loads api ckFile sentences start false order =
      some ([], [], ckFile) := by
  have hpend : pendingOf S sentences start = [] :=
    pendingAux_empty S start sentences 0 (fun k hk => by simpa using hall k hk)
  refine ⟨hpend, ?_⟩
  simp [process_sentences_concurrently, hload, hpend]

/-- C2 witness: two sentences whose indices 0 and 1 are both checkpointed. -/
theorem orchestrator_idempotent_witness :
    pendingOf ({0, 1} : Finset Nat) [['a'], ['b']] 0 = [] ∧
    process_sentences_concurrently (fun _ => none) (fun _ => Except.ok [])
      (some ['0', ',', '1']) [['a'], ['b']] 0 false [] =
      some ([], [], some ['0', ',', '1']) :=
  orchestrator_idempotent (fun _ => none) (fun _ => Except.ok [])
    (some ['0', ',', '1']) [['a'], ['b']] 0 [] {0, 1} (by decide)
    (by
      intro i hi
      have h2 : i < 2 := by simpa using hi
      interval_cases i <;> decide)

/-- C4: a bypass run never touches the checkpoint file — its result is the
same triple for every on-disk checkpoint content, and the returned file
state is exactly the prior one (the loaded set is replaced by the empty
set for filtering and the final save is skipped). -/
theorem bypass_preserves_checkpoint (loads : List Char → Option JsonObj)
    (api : List Message → Except (List Char) (List Char))
    (sentences : List (List Char)) (start : Nat)
    (order : List (Nat × List Char)) :
    ∃ res fails, ∀ ckFile,
      process_sentences_concurrently loads api ckFile sentences start true order =
        some (res, fails, ckFile) := by
  by_cases h : (pendingOf (∅ : Finset Nat) sentences start).isEmpty
  · exact ⟨[], [], fun ckFile => by simp [process_sentences_concurrently, h]⟩
  · exact ⟨(runTasks loads api sentences start ∅ order).1,
      (runTasks loads api sentences start ∅ order).2.1,
      fun ckFile => by simp [process_sentences_concurrently, h]⟩

theorem orch_unfold (loads : List Char → Option JsonObj)
    (api : List Message → Except (List Char) (List Char))
    (ckFile : Option (List Char)) (sentences : List (List Char))
    (start : Nat) (ignore : Bool) (order : List (Nat × List Char))
    (S : Finset Nat)
    (hload : (if ignore = true then some (∅ : Finset Nat) else load_checkpoint ckFile) = some S) :
    process_sentences_concurrently loads api ckFile sentences start ignore order =
      if (pendingOf S sentences start).isEmpty = true then some ([], [], ckFile)
      else
        some ((runTasks loads api sentences start S order).1,
          (runTasks loads api sentences start S order).2.1,
          if ignore = true then ckFile
          else some (save_checkpoint
            (((runTasks loads api sentences start S order).2.2).sort (· ≤ ·)))) := by
  unfold process_sentences_concurrently
  rw [hload]

/-- C9: every task completing with a failure outcome contributes a Failure
Record holding exactly the sentence that was dispatched under its index
(the re-lookup `sentences[index - start_index]` recovers it), in
completion order, whatever permutation of the dispatch list the
completions arrive in. -/
theorem failure_record_uses_dispatched_sentence (loads : List Char → Option JsonObj)
    (api : List Message → Except (List Char) (List Char))
    (ckFile : Option (List Char)) (sentences : List (List Char))
    (start : Nat) (ignore : Bool) (order : List (Nat × List Char))
    (S : Finset Nat) (res : List Record) (fails : List FailRec)
    (ck' : Option (List Char))
    (hload : (if ignore then some (∅ : Finset Nat) else load_checkpoint ckFile) = some S)
    (hperm : order.Perm (pendingOf S sentences start))
    (hrun : process_sentences_concurrently loads api ckFile sentences start ignore order =
      some (res, fails, ck')) :
    fails = order.filterMap (fun p =>
      match (process_sentence loads api p.1 p.2).2 with
      | none => some ⟨p.2⟩
      | some _ => none) := by
  rw [orch_unfold loads api ckFile sentences start ignore order S hload] at hrun
  by_cases hemp : (pendingOf S sentences start).isEmpty = true
  · have hnil : pendingOf S sentences start = [] := by
      simpa [List.isEmpty_iff] using hemp
    have hord : order = [] := (hnil ▸ hperm).eq_nil
    rw [if_pos hemp] at hrun
    simp only [Option.some.injEq, Prod.mk.injEq] at hrun
    rw [hord, ← hrun.2.1]
    rfl
  · rw [if_neg hemp] at hrun
    simp only [Option.some.injEq, Prod.mk.injEq] at hrun
    have hsen : ∀ p ∈ order, sentences.getD (p.1 - start) [] = p.2 :=
      fun p hp => mem_pendingOf_getD S sentences start p (hperm.mem_iff.1 hp)
    have hfold := runTasks_fails loads api sentences start order ([], [], S) hsen
    rw [← hrun.2.1]
    unfold runTasks
    rw [hfold]
    rfl

/-- C9 witness: a single sentence whose task fails (the decoder always
fails) yields the failure collection holding exactly that sentence. -/
theorem failure_record_uses_dispatched_sentence_witness :
    ([⟨['a']⟩] : List FailRec) =
      List.filterMap (fun p =>
        match (process_sentence (fun _ => none) (fun _ => Except.ok ['x']) p.1 p.2).2 with
        | none => some ⟨p.2⟩
        | some _ => none) [(0, ['a'])] :=
  failure_record_uses_dispatched_sentence (fun _ => none) (fun _ => Except.ok ['x'])
    none [['a']] 0 true [(0, ['a'])] ∅ [] [⟨['a']⟩] none
    rfl (by decide) (by decide)

/- C6: the Result Sink's failure-table replacement. -/

/-- C6: after `save_results`, the Failure Table file is absent when the
current run had zero failures — whatever stale failure file existed before
— and otherwise holds exactly the current run's failure records (a full
overwrite, never an append). -/
theorem fail_table_replacement (results : List Record) (fail_data : List FailRec)
    (outFile : Option (List Record)) (failFile : Option (List FailRec)) :
    (save_results results fail_data outFile failFile).2 =
      if fail_data.isEmpty then none else some fail_data := rfl

end InnerMonologue
